import Mathlib

/-!
Verification development for SimPEG/Parallel.py: a shallow embedding of the
Endpoint, RemoteInterface, SystemSolver (scheduler) and work-partitioning
code, together with theorems settling the specification claims.

Source: src/SimPEG/Parallel.py.  Python-2 semantics are embedded explicitly
(truthiness, floor division on ints, slice objects, dict assignment).
-/

namespace SimPEGParallel

/-! ## RemoteInterface.__init__ transport selection (Parallel.py lines 328-350)

Each worker is probed with os.getenv for the two bellwether variables
MPI_BELLWETHERS = [PMI_SIZE, OMPI_UNIVERSE_SIZE].  A worker environment is
modelled by two booleans: whether the respective variable is set to a truthy
string (os.getenv returns None when unset, and all() tests truthiness). -/

def DEFAULT_MPI : Bool := true

structure WorkerEnv where
  pmiSize : Bool
  ompiUniverseSize : Bool
deriving DecidableEq

/-- Embeds lines 331-334:
MPISafe = False; for var in MPI_BELLWETHERS: MPISafe = MPISafe or all(dview[os.getenv(var)]).
The loop over the two bellwethers is kept as a fold over the two all() probes. -/
def mpiSafeProbe (workers : List WorkerEnv) : Bool :=
  [workers.all (fun w => w.pmiSize),
   workers.all (fun w => w.ompiUniverseSize)].foldl (fun acc b => acc || b) false

/-- Embeds lines 328-350 of RemoteInterface.__init__ as far as the final value
of self.useMPI is concerned: useMPI starts False; MPI defaults to DEFAULT_MPI
when the argument is None; when MPI is truthy, useMPI ends up equal to MPISafe. -/
def remoteInterfaceUseMPI (mpiArg : Option Bool) (workers : List WorkerEnv) : Bool :=
  let mpi := mpiArg.getD DEFAULT_MPI
  if mpi then mpiSafeProbe workers else false

/-! ## SystemSolver._subSlice (Parallel.py lines 284-288)

Python 2: start = insl.start or 0 (None and 0 are both falsy, giving 0);
nproblems = insl.stop - start raises TypeError when stop is None;
i*nproblems/chunks is integer floor division on ints (Python 2 `/`).
A slice object is modelled by its start/stop components (each possibly None);
the result is the list of (start, stop) pairs of the produced sub-slices. -/

def subSlice (start? stop? : Option Int) (chunks : Nat) : Except String (List (Int × Int)) :=
  let start := start?.getD 0
  match stop? with
  | none => .error "TypeError: unsupported operand type for -: NoneType and int"
  | some stop =>
    let nproblems := stop - start
    .ok ((List.range chunks).map (fun (i : Nat) =>
      (start + Int.fdiv ((i : Int) * nproblems) (chunks : Int),
       start + Int.fdiv (((i : Int) + 1) * nproblems) (chunks : Int))))

/-- The boundary actually computed by _subSlice: start + floor(i*W/c). -/
def subSliceBoundary (start stop : Int) (c : Nat) (i : Nat) : Int :=
  start + Int.fdiv ((i : Int) * (stop - start)) (c : Int)

/-- The boundary the claim describes: start + round(i*W/c), with rounding on
rationals.  This follows the specification words, for comparison with the
source definition subSlice. -/
def claimRoundBoundary (start stop : Int) (c : Nat) (i : Nat) : Int :=
  start + round (((i : ℚ) * ((stop : ℚ) - (start : ℚ))) / (c : ℚ))

/-! ## Endpoint (Parallel.py lines 35-88)

A subproblem tag is a pair of integers.  Factories are deterministic in the
model: the problem constructed by problemFactory is represented by the
system configuration it was built from (the base configuration minus geom,
updated with the subproblem configuration), and pairing records the survey
object.  Python dictionaries are embedded as lookup functions (localProblems,
localSurveys, localFields), except fieldspec, which the source also iterates
over, and which is therefore an ordered association list with unique keys. -/

abbrev Tag := Int × Int

/-- A subproblem configuration as passed to Endpoint.setupLocalProblem: its
tag, its isub (selecting the survey), and an opaque payload standing for the
remaining configuration entries. -/
structure SubConfig where
  tag : Tag
  isub : Int
  payload : Int
deriving DecidableEq

/-- The subproblem object constructed by problemFactory and paired by
setupLocalProblem, modelled by its construction data. -/
structure Problem where
  basePayload : Int
  subConfig : SubConfig
  pairedSurvey : Int
deriving DecidableEq

structure EndpointProblems where
  basePayload : Int
  localSurveys : Int → Option Int
  localProblems : Tag → Option Problem

/-- The dictionary assignment of line 88: store the constructed, paired
subproblem under localProblems[subConfig.tag]. -/
def storeProblem (ep : EndpointProblems) (sub : SubConfig) (survey : Int) :
    EndpointProblems :=
  let problem : Problem :=
    { basePayload := ep.basePayload, subConfig := sub, pairedSurvey := survey }
  { ep with localProblems := fun t =>
      if t = sub.tag then some problem else ep.localProblems t }

/-- Embeds Endpoint.setupLocalProblem (lines 75-88): build the system
configuration (base minus geom, updated with subConfig), construct the
problem, pair it with localSurveys[subConfig.isub] (a KeyError when the
survey is missing), and store it under localProblems[subConfig.tag] by plain
dictionary assignment. -/
def setupLocalProblem (ep : EndpointProblems) (sub : SubConfig) :
    Except String EndpointProblems :=
  match ep.localSurveys sub.isub with
  | none => .error "KeyError: isub"
  | some survey => .ok (storeProblem ep sub survey)

abbrev FieldName := String

/-- The field container built by a fieldspec constructor, opaque in the model. -/
abbrev Container := Int

structure EndpointFields where
  localFields : FieldName → Option Container
  fieldspec : Option (List (FieldName × Container))

/-- One iteration of the setupLocalFields loop body (line 62): look up the
name in fieldspec (a KeyError when absent) and store the freshly constructed
container under it in localFields. -/
def fieldStep (fs : List (FieldName × Container)) (acc : EndpointFields) (fn : FieldName) :
    Except String EndpointFields :=
  match fs.find? (fun p => p.1 = fn) with
  | some p => .ok { acc with
      localFields := fun k => if k = fn then some p.2 else acc.localFields k }
  | none => .error ("KeyError: " ++ fn)

/-- Embeds Endpoint.setupLocalFields (lines 51-62) with Python-2 semantics:
localFields is cleared only when whichfields is None; when a fieldspec is
present, the loop runs over (whichfields or self.fieldspec), so an empty
whichfields list is falsy and falls through to the fieldspec keys; each name
is looked up in fieldspec (a KeyError when absent) and a fresh container is
stored under it. -/
def setupLocalFields (ep : EndpointFields) (whichfields : Option (List FieldName)) :
    Except String EndpointFields :=
  let ep1 := if whichfields.isNone then { ep with localFields := fun _ => none } else ep
  match ep1.fieldspec with
  | none => .ok ep1
  | some fs =>
    let names := match whichfields with
      | none => fs.map Prod.fst
      | some l => if l.isEmpty then fs.map Prod.fst else l
    names.foldlM (fieldStep fs) ep1

/-! ## RemoteInterface.reduce (lines 406-422), value semantics

Field containers are modelled as integer-valued arrays indexed by an
arbitrary type, with pointwise addition (the Pi instance).  The collective
branch executes temp_key = comm.reduce(key, root=0) — an MPI SUM reduction
over the ranks' contributions in rank order — and pulls the root's temp; the
star branch pulls every worker's value into the client and folds them with
np.add (functools.reduce, which raises a TypeError on an empty sequence). -/

/-- functools.reduce(np.add, vals): fold the tail onto the head; Python
raises on an empty sequence, modelled as none. -/
def reduceNpAdd {α : Type} [Add α] (vals : List α) : Option α :=
  match vals with
  | [] => none
  | v :: rest => some (rest.foldl (fun a b => a + b) v)

/-- RemoteInterface.reduce (lines 406-422) as a function of the per-worker
values of the key, rank-ascending: the collective branch returns the root's
comm.reduce SUM of all contributions; the star branch folds the pulled
values with np.add in the client. -/
def remoteReduce {α : Type} [AddMonoid α] (useMPI : Bool) (vals : List α) : Option α :=
  if useMPI then some vals.sum else reduceNpAdd vals

/-! ## RemoteInterface.remoteSrcEstGatherFirst (lines 531-562)

Field containers here are two-axis arrays over a star-field, modelled as
functions Fin m → Fin n → α.  numpy elementwise product, conj(), sum() and
sum(axis=1) are embedded pointwise. -/

abbrev FieldArr (α : Type) (m n : Nat) := Fin m → Fin n → α

def arrConj {α : Type} [Star α] {m n : Nat} (A : FieldArr α m n) : FieldArr α m n :=
  fun i j => star (A i j)

def arrMul {α : Type} [Mul α] {m n : Nat} (A B : FieldArr α m n) : FieldArr α m n :=
  fun i j => A i j * B i j

def arrSumAll {α : Type} [AddCommMonoid α] {m n : Nat} (A : FieldArr α m n) : α :=
  ∑ i, ∑ j, A i j

def arrSumAxis1 {α : Type} [AddCommMonoid α] {m n : Nat} (A : FieldArr α m n) : Fin m → α :=
  fun i => ∑ j, A i j

/-- The two result shapes of the source estimate: a single scalar when
individual is false (sum over all axes) or one scalar per leading index when
individual is true (sum over axis 1). -/
inductive SrcEstResult (α : Type) (m : Nat) where
  | whole (s : α)
  | perSource (v : Fin m → α)

def SrcEstResult.getWhole {α : Type} {m : Nat} : SrcEstResult α m → Option α
  | .whole s => some s
  | .perSource _ => none

def SrcEstResult.getPerSource {α : Type} {m : Nat} : SrcEstResult α m → Option (Fin m → α)
  | .whole _ => none
  | .perSource v => some v

/-- Collective branch of remoteSrcEstGatherFirst (lines 533-550): the gather
of key1 is commented out in the source, so e0 computes the estimate from its
own local key1 and key2 values; the result is then broadcast, so every worker
ends holding this value under keyresult. -/
def remoteSrcEstGF_mpi {α : Type} [Field α] [StarRing α] {m n : Nat}
    (k1root k2root : FieldArr α m n) (individual : Bool) : SrcEstResult α m :=
  if individual then
    .perSource (fun i =>
      arrSumAxis1 (arrMul (arrConj k2root) k1root) i
        / arrSumAxis1 (arrMul (arrConj k1root) k1root) i)
  else
    .whole (arrSumAll (arrMul (arrConj k2root) k1root)
        / arrSumAll (arrMul (arrConj k1root) k1root))

/-- Star branch of remoteSrcEstGatherFirst (lines 552-562): item1 is
functools.reduce(np.add, dview[key1]) — the pointwise sum over all workers —
item2 is the root worker's key2 value; the estimate is assigned into every
worker's namespace under keyresult. -/
def remoteSrcEstGF_star {α : Type} [Field α] [StarRing α] {m n : Nat}
    (vals1 : List (FieldArr α m n)) (k2root : FieldArr α m n) (individual : Bool) :
    Option (SrcEstResult α m) :=
  (reduceNpAdd vals1).map (fun item1 =>
    if individual then
      .perSource (fun i =>
        arrSumAxis1 (arrMul (arrConj k2root) item1) i
          / arrSumAxis1 (arrMul (arrConj item1) item1) i)
    else
      .whole (arrSumAll (arrMul (arrConj k2root) item1)
          / arrSumAll (arrMul (arrConj item1) item1)))

/-- Modelled from the claim: S = (conj(K2)·reduce(K1)) / (conj(reduce(K1))·reduce(K1))
where reduce(K1) is the pointwise sum of key1 over all workers, claimed to be
the value computed in both transport modes. -/
def srcEstClaimFormula {α : Type} [Field α] [StarRing α] {m n : Nat}
    (vals1 : List (FieldArr α m n)) (k2 : FieldArr α m n) (individual : Bool) :
    SrcEstResult α m :=
  let k1sum : FieldArr α m n := fun i j => (vals1.map (fun A => A i j)).sum
  if individual then
    .perSource (fun i =>
      arrSumAxis1 (arrMul (arrConj k2) k1sum) i
        / arrSumAxis1 (arrMul (arrConj k1sum) k1sum) i)
  else
    .whole (arrSumAll (arrMul (arrConj k2) k1sum)
        / arrSumAll (arrMul (arrConj k1sum) k1sum))

/-- Concrete per-worker key values for the reduce witness: two workers, each
holding a two-entry array. -/
def valsC5 : List (Fin 2 → Int) :=
  [fun i => if i = 0 then 1 else 2, fun i => if i = 0 then 3 else 4]

/-- Concrete key1 value (both workers) for the source-estimate scenario: the
constant 1 array of shape 1 by 1, over the rationals (trivial conjugation). -/
def a1C3 : FieldArr ℚ 1 1 := fun _ _ => 1

/-- Concrete key2 value on the root for the source-estimate scenario. -/
def b2C3 : FieldArr ℚ 1 1 := fun _ _ => 2

/-! ## RemoteInterface collective namespace operations (lines 373-529)

Worker namespaces are modelled as lookup functions from names to Python
values; a cluster is the rank-ordered list of worker namespaces with the root
(e0 after the MPI reorder) at index 0.  Values are None, opaque integer
scalars standing for field containers (container arithmetic is represented by
integer arithmetic — the frame-effect claims are insensitive to values), or a
gathered per-rank list.  dview.execute runs a statement on every worker;
e0.execute runs it on the root only. -/

inductive PyVal where
  | pynone : PyVal
  | pyint : Int → PyVal
  | pylist : List Int → PyVal
deriving DecidableEq

/-- Projection of a Python value to its integer payload (0 for non-integers);
used only to form the rank-ordered gather tuple, whose contents none of the
modelled operations or theorems inspect. -/
def pyAsInt : PyVal → Int
  | .pyint z => z
  | _ => 0

abbrev WorkerNS := String → Option PyVal

abbrev Cluster := List WorkerNS

/-- Assignment of a name in a worker namespace. -/
def nsSet (ns : WorkerNS) (k : String) (v : PyVal) : WorkerNS :=
  fun q => if q = k then some v else ns q

/-- del of a name in a worker namespace. -/
def nsDel (ns : WorkerNS) (k : String) : WorkerNS :=
  fun q => if q = k then none else ns q

/-- Whether a name is bound in a worker namespace. -/
def nsHas (ns : WorkerNS) (k : String) : Bool :=
  (ns k).isSome

/-- The value of a name in a worker namespace (None when unbound; reading an
unbound name is a NameError in Python, which no modelled path exercises under
the theorems' hypotheses). -/
def nsVal (ns : WorkerNS) (k : String) : PyVal :=
  (ns k).getD .pynone

/-- dview.execute: run a namespace transformation on every worker. -/
def execAll (c : Cluster) (f : WorkerNS → WorkerNS) : Cluster := c.map f

/-- e0.execute: run a namespace transformation on the root only. -/
def execRoot (c : Cluster) (f : WorkerNS → WorkerNS) : Cluster :=
  match c with
  | [] => []
  | root :: rest => f root :: rest

/-- e0[k]: pull the root's value of a name. -/
def rootVal (c : Cluster) (k : String) : PyVal :=
  match c with
  | [] => .pynone
  | root :: _ => nsVal root k

def pyAdd : PyVal → PyVal → PyVal
  | .pyint a, .pyint b => .pyint (a + b)
  | _, _ => .pynone

def pySub : PyVal → PyVal → PyVal
  | .pyint a, .pyint b => .pyint (a - b)
  | _, _ => .pynone

def pyMul : PyVal → PyVal → PyVal
  | .pyint a, .pyint b => .pyint (a * b)
  | _, _ => .pynone

/-- The cluster-wide SUM that comm.reduce(key, root=0) delivers to the root:
the per-rank values folded in rank order. -/
def clusterSum (c : Cluster) (k : String) : PyVal :=
  match c.map (fun ns => nsVal ns k) with
  | [] => .pynone
  | v :: rest => rest.foldl pyAdd v

/-- dview.execute of temp_key = comm.reduce(key, root=0): the root receives
the sum; on every other rank comm.reduce returns None, so temp_key is bound
to None there. -/
def commReduceTemp (c : Cluster) (k : String) : Cluster :=
  let s := clusterSum c k
  match c with
  | [] => []
  | root :: rest =>
    nsSet root ("temp_" ++ k) s :: rest.map (fun ns => nsSet ns ("temp_" ++ k) .pynone)

/-- dview.execute of the broadcast pattern
(if rank != 0: key = None; key = comm.bcast(key, root=0)): every worker ends
holding the root's value of the name. -/
def bcastFromRoot (c : Cluster) (k : String) : Cluster :=
  let v := rootVal c k
  c.map (fun ns => nsSet ns k v)

/-- RemoteInterface.__setitem__, collective branch (lines 375-378): set the
name on the root, then broadcast it to every worker. -/
def clusterSetMPI (c : Cluster) (k : String) (v : PyVal) : Cluster :=
  bcastFromRoot (execRoot c (fun ns => nsSet ns k v)) k

/-- RemoteInterface.__getitem__, collective branch (lines 385-389): bind
temp_key to None then to comm.gather(key, root=0) on every worker (the
gathered per-rank list lands on the root, None elsewhere), pull the root's
temp as the result, and delete temp_key on the root only. -/
def clusterGetMPI (c : Cluster) (k : String) : Cluster × PyVal :=
  let gathered := PyVal.pylist (c.map (fun ns => pyAsInt (nsVal ns k)))
  let c1 := match c with
    | [] => []
    | root :: rest => nsSet root ("temp_" ++ k) gathered
        :: rest.map (fun ns => nsSet ns ("temp_" ++ k) .pynone)
  let item := rootVal c1 ("temp_" ++ k)
  (execRoot c1 (fun ns => nsDel ns ("temp_" ++ k)), item)

/-- RemoteInterface.reduce, collective branch (lines 408-417): reduce into
temp_key, pull the root's temp, then delete temp_key on every worker. -/
def clusterReduceMPI (c : Cluster) (k : String) : Cluster × PyVal :=
  let c1 := commReduceTemp c k
  let item := rootVal c1 ("temp_" ++ k)
  (execAll c1 (fun ns => nsDel ns ("temp_" ++ k)), item)

/-- numpy sum(axis=d) on the opaque container stand-in: containers are opaque
scalars in this model, so the axis sum is the stand-in itself (the source
reassigns the same root temporary; which names exist is unaffected). -/
def pyAxisSum (v : PyVal) : PyVal := v

/-- RemoteInterface.reduceMul, collective branch (lines 426-447): reduce both
keys into temporaries, multiply on the root into temp_key1key2, optionally
axis-sum it on the root, pull it, then delete temp_key1 and temp_key2 on
every worker and temp_key1key2 on the root. -/
def clusterReduceMulMPI (c : Cluster) (k1 k2 : String) (axis : Option Int) :
    Cluster × PyVal :=
  let tmp12 := "temp_" ++ k1 ++ k2
  let c1 := commReduceTemp c k1
  let c2 := commReduceTemp c1 k2
  let c3 := execRoot c2 (fun ns =>
    nsSet ns tmp12 (pyMul (nsVal ns ("temp_" ++ k1)) (nsVal ns ("temp_" ++ k2))))
  let c4 := match axis with
    | some _ => execRoot c3 (fun ns => nsSet ns tmp12 (pyAxisSum (nsVal ns tmp12)))
    | none => c3
  let item := rootVal c4 tmp12
  let c5 := execAll c4 (fun ns => nsDel ns ("temp_" ++ k1))
  let c6 := execAll c5 (fun ns => nsDel ns ("temp_" ++ k2))
  (execRoot c6 (fun ns => nsDel ns tmp12), item)

/-- RemoteInterface.remoteDifference, collective branch (lines 472-491):
reduce key1 and key2 into temporaries, difference on the root into keyresult,
broadcast keyresult to every worker, then delete the two temporaries on the
root only. -/
def clusterRemoteDifferenceMPI (c : Cluster) (k1 k2 kr : String) : Cluster :=
  let c1 := commReduceTemp c k1
  let c2 := commReduceTemp c1 k2
  let c3 := execRoot c2 (fun ns =>
    nsSet ns kr (pySub (nsVal ns ("temp_" ++ k1)) (nsVal ns ("temp_" ++ k2))))
  let c4 := bcastFromRoot c3 kr
  let c5 := execRoot c4 (fun ns => nsDel ns ("temp_" ++ k1))
  execRoot c5 (fun ns => nsDel ns ("temp_" ++ k2))

/-- RemoteInterface.remoteOpGatherFirst, collective branch (lines 502-519):
reduce key1 only; key2 is read as-is on the root; apply the operation on the
root into keyresult, broadcast it, then delete temp_key1 on the root only. -/
def clusterRemoteOpGFMPI (c : Cluster) (op : PyVal → PyVal → PyVal)
    (k1 k2 kr : String) : Cluster :=
  let c1 := commReduceTemp c k1
  let c2 := execRoot c1 (fun ns =>
    nsSet ns kr (op (nsVal ns ("temp_" ++ k1)) (nsVal ns k2)))
  let c3 := bcastFromRoot c2 kr
  execRoot c3 (fun ns => nsDel ns ("temp_" ++ k1))

/-! ## SystemSolver.__call__ (lines 145-288): the scheduler

The scheduler builds a graph and submits compute, clear and reduction tasks.
The embedding records every submission in order, with a fresh numeric job id
standing for the AsyncResult of each submission; the graph edges themselves
are not needed by the claims.  Python set iteration order over tags is
unspecified; the model fixes first-occurrence order, on which none of the
verified statements depend. -/

structure SchedEntry where
  solve : String
  clear : String
  reduce : List String
deriving DecidableEq

/-- The isrcs argument of SystemSolver.__call__: None, a slice object (start
and stop each possibly None; _subSlice never reads step), or any other
(non-slice, non-None) value. -/
inductive ISrcs where
  | noneArg : ISrcs
  | sliceArg : Option Int → Option Int → ISrcs
  | otherArg : ISrcs
deriving DecidableEq

/-- What the scheduler learns about one worker from
dview[endpoint.localProblems.keys()] and dview[rank] (lines 181-182). -/
structure WorkerInfo where
  rank : Nat
  localProblems : List Tag
deriving DecidableEq

/-- A remotely callable reference: an ipyparallel Reference (resolves on any
engine), or a SuperReference carrying an optional allowed-rank list
(lines 9-33; unused by the scheduler, whose TODOs say it is not wired in). -/
inductive FnRef where
  | plainRef : String → FnRef
  | superRef : String → Option (List Nat) → FnRef
deriving DecidableEq

/-- Where a callable can execute: a Reference runs on any engine; a
SuperReference raises UnmetDependency unless the worker's global rank is in
its rank list (SuperReference.__call__, lines 25-33). -/
def FnRef.runnableOn : FnRef → Nat → Bool
  | .plainRef _, _ => true
  | .superRef _ none, _ => true
  | .superRef _ (some rs), r => rs.contains r

/-- A compute submission of line 213: lview.apply(fnRef, endpoint, tag, work)
under temp_flags(block=False) — no after, follow or dependency flags. -/
structure ComputeTask where
  jobId : Nat
  fnRef : FnRef
  tag : Tag
  work : Int × Int
deriving DecidableEq

/-- A compute task is dispatchable to (and executable on) a worker exactly
when its callable can run there: its submission carries no placement flags. -/
def ComputeTask.dispatchableTo (t : ComputeTask) (w : WorkerInfo) : Bool :=
  t.fnRef.runnableOn w.rank

/-- A clear submission: line 232 (ensemble branch: after all of the tag's
compute jobs, rank passed as an argument) or line 242 (individual branch:
follow and after the single matching compute job). -/
structure ClearTask where
  jobId : Nat
  fnRef : FnRef
  tag : Tag
  rankArg : Option Nat
  afterJobs : List Nat
  followJobs : List Nat
deriving DecidableEq

/-- The after argument passed to reduceLB (lines 256-259): initially the list
of all clear jobs, then the previous reduceLB's returned job, or None once a
reduceLB returned None (the star-mode fall-through). -/
inductive AfterArg where
  | jobList : List Nat → AfterArg
  | singleJob : Nat → AfterArg
  | pynone : AfterArg
deriving DecidableEq

/-- A reduction submission by reduceLB (lines 396-404): one load-balanced map
job carrying the field name, submitted with temp_flags(block=False, after). -/
structure ReduceSub where
  jobId : Nat
  label : String
  afterArg : AfterArg
deriving DecidableEq

/-- Everything SystemSolver.__call__ submits, in submission order, plus the
jobs attribute of the graph's End node. -/
structure SchedOut where
  computes : List ComputeTask
  clears : List ClearTask
  reduces : List ReduceSub
  endJobs : List Nat
deriving DecidableEq

/-- Lines 183-185: the union of the per-worker tag sets (Python set union;
first-occurrence order in the model). -/
def unionTags (ws : List WorkerInfo) : List Tag :=
  (ws.foldl (fun acc w => acc ++ w.localProblems) []).dedup

structure SchedConfig where
  entry : SchedEntry
  endpointName : String
  workers : List WorkerInfo
  chunksPerWorker : Nat
  ensembleClear : Bool
  useMPI : Bool
  nsrc : Nat
deriving DecidableEq

/-- Lines 174-178: None is replaced by slice(None); anything that is neither
a slice nor None raises immediately.  (The fetched nsrc of line 173 is never
used.) -/
def parseISrcs : ISrcs → Except String (Option Int × Option Int)
  | .noneArg => .ok (none, none)
  | .sliceArg a b => .ok (a, b)
  | .otherArg => .error "Scheduler must run over slice or None!"

/-- The reduction loop of lines 254-262 together with reduceLB (lines
396-404): for each field name, reduceLB submits one load-balanced map job
when useMPI is true and returns None otherwise; the returned job becomes the
next submission's after argument, and every non-None job is appended to the
list that becomes the End node's jobs. -/
def reduceChain (useMPI : Bool) (labels : List String) (after0 : AfterArg)
    (nid : Nat) : List ReduceSub × List Nat × Nat :=
  match labels with
  | [] => ([], [], nid)
  | label :: rest =>
    if useMPI then
      let sub : ReduceSub := { jobId := nid, label := label, afterArg := after0 }
      let res := reduceChain useMPI rest (.singleJob nid) (nid + 1)
      (sub :: res.1, nid :: res.2.1, res.2.2)
    else
      reduceChain useMPI rest .pynone nid

/-- The per-tag body of the scheduler loop (lines 191-247): collect the ranks
hosting the tag (in dview order), partition the sources into
chunksPerWorker * len(relIDs) sub-slices, submit one compute task per
sub-slice (a Python slice object is always truthy, so the `if work` guard
skips nothing), then submit clear tasks per the ensembleClear policy:
ensemble — one clear per hosting rank, after all of the tag's compute jobs,
with the rank as argument; individual — one clear per compute job, with
follow and after pinned to that job. -/
def scheduleTag (cfg : SchedConfig) (fnRef clearRef : FnRef)
    (sstart sstop : Option Int) (tag : Tag) (nid : Nat) :
    Except String (List ComputeTask × List ClearTask × Nat) := do
  let relIDs := (cfg.workers.filter (fun w => tag ∈ w.localProblems)).map
    (fun w => w.rank)
  let works ← subSlice sstart sstop (cfg.chunksPerWorker * relIDs.length)
  let computes := works.enum.map (fun p =>
    { jobId := nid + p.1, fnRef := fnRef, tag := tag, work := p.2 : ComputeTask })
  let nid2 := nid + works.length
  let systemJobs := computes.map (fun t => t.jobId)
  if cfg.ensembleClear then
    let clears := relIDs.enum.map (fun p =>
      { jobId := nid2 + p.1, fnRef := clearRef, tag := tag, rankArg := some p.2,
        afterJobs := systemJobs, followJobs := [] : ClearTask })
    .ok (computes, clears, nid2 + relIDs.length)
  else
    let clears := computes.enum.map (fun p =>
      { jobId := nid2 + p.1, fnRef := clearRef, tag := tag, rankArg := none,
        afterJobs := [p.2.jobId], followJobs := [p.2.jobId] : ClearTask })
    .ok (computes, clears, nid2 + computes.length)

/-- The scheduler loop over all tags (lines 191-252), accumulating compute
and clear submissions in submission order. -/
def scheduleTags (cfg : SchedConfig) (fnRef clearRef : FnRef)
    (sstart sstop : Option Int) :
    List Tag → Nat → Except String (List ComputeTask × List ClearTask × Nat)
  | [], nid => .ok ([], [], nid)
  | tag :: rest, nid => do
    let r1 ← scheduleTag cfg fnRef clearRef sstart sstop tag nid
    let r2 ← scheduleTags cfg fnRef clearRef sstart sstop rest r1.2.2
    .ok (r1.1 ++ r2.1, r1.2.1 ++ r2.2.1, r2.2.2)

/-- Embeds SystemSolver.__call__ (lines 153-266) as far as submissions and
the End node are concerned: resolve plain References for the solve and clear
callables (line 156-158, the SuperReference replacement being a TODO), parse
the source range, discover tags, run the per-tag loop, then submit the
reduction chain; the End node's jobs are the collected reduction jobs. -/
def systemSolverCall (cfg : SchedConfig) (isrcs : ISrcs) : Except String SchedOut :=
  let fnRef := FnRef.plainRef
    (cfg.endpointName ++ ".functions[\x22" ++ cfg.entry.solve ++ "\x22]")
  let clearRef := FnRef.plainRef
    (cfg.endpointName ++ ".functions[\x22" ++ cfg.entry.clear ++ "\x22]")
  match parseISrcs isrcs with
  | .error e => .error e
  | .ok s =>
    match scheduleTags cfg fnRef clearRef s.1 s.2 (unionTags cfg.workers) 0 with
    | .error e => .error e
    | .ok r =>
      let red := reduceChain cfg.useMPI cfg.entry.reduce
        (.jobList (r.2.1.map (fun t => t.jobId))) r.2.2
      .ok { computes := r.1, clears := r.2.1, reduces := red.1, endJobs := red.2.1 }

/-- The worker hosting tag (0,0) in the affinity scenario. -/
def workerC1a : WorkerInfo := { rank := 0, localProblems := [(0, 0)] }

/-- A worker hosting no tags in the affinity scenario. -/
def workerC1b : WorkerInfo := { rank := 1, localProblems := [] }

/-- Scheduler configuration for the affinity scenario: two workers, tag (0,0)
hosted only on rank 0, individual clear. -/
def cfgC1 : SchedConfig :=
  { entry := { solve := "fwd", clear := "clr", reduce := ["u"] }
  , endpointName := "endpoint"
  , workers := [workerC1a, workerC1b]
  , chunksPerWorker := 1
  , ensembleClear := false
  , useMPI := true
  , nsrc := 1 }

/-- Scheduler configuration for the reduction-chain scenario: one worker, two
reduction field names. -/
def cfgC4 : SchedConfig :=
  { entry := { solve := "fwd", clear := "clr", reduce := ["u", "v"] }
  , endpointName := "endpoint"
  , workers := [{ rank := 0, localProblems := [(0, 0)] }]
  , chunksPerWorker := 1
  , ensembleClear := false
  , useMPI := true
  , nsrc := 1 }

/-- Scheduler configuration for the error-handling scenario: one worker
hosting one tag (so the per-tag loop runs), four sources. -/
def cfgC9 : SchedConfig :=
  { entry := { solve := "fwd", clear := "clr", reduce := [] }
  , endpointName := "endpoint"
  , workers := [{ rank := 0, localProblems := [(0, 0)] }]
  , chunksPerWorker := 1
  , ensembleClear := false
  , useMPI := true
  , nsrc := 4 }

/-- A concrete endpoint for exercising setupLocalProblem: one survey under
isub 0, no subproblems registered yet. -/
def epC8 : EndpointProblems :=
  { basePayload := 7
  , localSurveys := fun i => if i = 0 then some 100 else none
  , localProblems := fun _ => none }

def subC8a : SubConfig := { tag := (0, 0), isub := 0, payload := 1 }

def subC8b : SubConfig := { tag := (0, 0), isub := 0, payload := 2 }

/-- A concrete endpoint for the C10 witness: fieldspec builds containers for
u and v; localFields already holds an entry under w, outside fieldspec. -/
def epC10 : EndpointFields :=
  { localFields := fun k => if k = "w" then some 9 else none
  , fieldspec := some [("u", 1), ("v", 2)] }

/-- The Reference submitted for the solve callable of cfgC4. -/
def fwdRefC4 : FnRef := .plainRef ("endpoint.functions[\x22fwd\x22]")

/-- The Reference submitted for the clear callable of cfgC4. -/
def clrRefC4 : FnRef := .plainRef ("endpoint.functions[\x22clr\x22]")

/-- The concrete scheduler output at cfgC4 over the slice [0, 1). -/
def outC4 : SchedOut :=
  { computes := [{ jobId := 0, fnRef := fwdRefC4, tag := (0, 0), work := (0, 1) }],
    clears := [{ jobId := 1, fnRef := clrRefC4, tag := (0, 0), rankArg := none,
                 afterJobs := [0], followJobs := [0] }],
    reduces := [{ jobId := 2, label := "u", afterArg := .jobList [1] },
        { jobId := 3, label := "v", afterArg := .singleJob 2 }],
    endJobs := [2, 3] }

/-- A concrete two-worker cluster: both workers hold a = 1 and b = 2. -/
def cC7 : Cluster :=
  [fun k => if k = "a" then some (.pyint 1) else if k = "b" then some (.pyint 2) else none,
   fun k => if k = "a" then some (.pyint 1) else if k = "b" then some (.pyint 2) else none]

end SimPEGParallel

namespace SimPEGParallel

/-! ## Theorems for C2 (transport selection) -/

/-- C2 counterexample: with MPI requested, a two-worker cluster where the first
worker carries only PMI_SIZE and the second only OMPI_UNIVERSE_SIZE has every
worker holding at least one bellwether, yet remoteInterfaceUseMPI is false —
the source computes all(PMI_SIZE) or all(OMPI_UNIVERSE_SIZE), not the
per-worker disjunction the claim states. -/
theorem useMPI_mixed_bellwethers_cex :
    remoteInterfaceUseMPI (some true) [⟨true, false⟩, ⟨false, true⟩] = false
    ∧ ([⟨true, false⟩, ⟨false, true⟩] : List WorkerEnv).all
        (fun w => w.pmiSize || w.ompiUniverseSize) = true := by
  decide

/-- C2 amended: with MPI requested, collective transport mode is activated iff
either every worker has PMI_SIZE set, or every worker has OMPI_UNIVERSE_SIZE
set (each probe is an all() across workers; the two probes are disjoined). -/
theorem useMPI_iff_uniform_bellwether (workers : List WorkerEnv) :
    remoteInterfaceUseMPI (some true) workers = true
    ↔ ((∀ w ∈ workers, w.pmiSize = true) ∨ (∀ w ∈ workers, w.ompiUniverseSize = true)) := by
  simp [remoteInterfaceUseMPI, mpiSafeProbe, List.all_eq_true]

/-! ## Theorems for C6 (work partitioning) -/

/-- C6 counterexample: for the input slice [0, 10) with 4 chunks the source
produces boundaries 0,2,5,7,10 by integer floor division, whereas the claimed
round-based boundary at i = 1 is round(2.5) = 3 (and at i = 3, round(7.5) = 8):
the first sub-slice [0,2) already differs from the claimed [0,3). -/
theorem subSlice_round_cex :
    subSlice (some 0) (some 10) 4 = .ok [(0, 2), (2, 5), (5, 7), (7, 10)]
    ∧ claimRoundBoundary 0 10 4 1 = 3
    ∧ claimRoundBoundary 0 10 4 3 = 8
    ∧ ¬ (subSliceBoundary 0 10 4 1 = claimRoundBoundary 0 10 4 1) := by
  have h1 : claimRoundBoundary 0 10 4 1 = 3 := by
    unfold claimRoundBoundary
    norm_num [round_eq]
  have h3 : claimRoundBoundary 0 10 4 3 = 8 := by
    unfold claimRoundBoundary
    norm_num [round_eq]
  refine ⟨rfl, h1, h3, ?_⟩
  rw [h1]
  decide

/-- C6 amended: for every input slice [start, stop) with start ≤ stop and every
chunk count c ≥ 1, _subSlice produces exactly c contiguous sub-slices whose
boundaries are start + floor(i*W/c) for i in [0, c] with W = stop - start
(integer floor division, not round); the boundaries start at start, end at
stop, and are monotone, so the sub-slices cover [start, stop) exactly with no
overlap. -/
theorem subSlice_floor_boundaries (start stop : Int) (c : Nat) (hc : 1 ≤ c)
    (hw : start ≤ stop) :
    subSlice (some start) (some stop) c =
      .ok ((List.range c).map
        (fun i => (subSliceBoundary start stop c i, subSliceBoundary start stop c (i + 1))))
    ∧ ((List.range c).map
        (fun i => (subSliceBoundary start stop c i, subSliceBoundary start stop c (i + 1)))).length = c
    ∧ subSliceBoundary start stop c 0 = start
    ∧ subSliceBoundary start stop c c = stop
    ∧ (∀ i j : Nat, i ≤ j → subSliceBoundary start stop c i ≤ subSliceBoundary start stop c j) := by
  have hcpos : (0 : Int) < (c : Int) := by omega
  have hc0 : (c : Int) ≠ 0 := hcpos.ne'
  refine ⟨?_, by simp, ?_, ?_, ?_⟩
  · simp only [subSlice, subSliceBoundary, Option.getD_some]
    refine congrArg Except.ok (List.map_congr_left ?_)
    intro i _
    push_cast
    rfl
  · simp [subSliceBoundary]
  · unfold subSliceBoundary
    rw [Int.mul_comm, Int.mul_fdiv_cancel _ hc0]
    omega
  · intro i j hij
    unfold subSliceBoundary
    have hW : (0 : Int) ≤ stop - start := by omega
    have hmono : (i : Int) * (stop - start) ≤ (j : Int) * (stop - start) := by
      apply mul_le_mul_of_nonneg_right _ hW
      exact_mod_cast hij
    rw [Int.fdiv_eq_ediv _ (le_of_lt hcpos), Int.fdiv_eq_ediv _ (le_of_lt hcpos)]
    have := Int.ediv_le_ediv hcpos hmono
    omega

/-- C6 witness: the amended boundary theorem instantiated at the slice [0, 10)
with 4 chunks. -/
theorem subSlice_floor_boundaries_witness :
    ((1 : Nat) ≤ 4 ∧ (0 : Int) ≤ 10)
    ∧ (subSlice (some 0) (some 10) 4 =
        .ok ((List.range 4).map
          (fun i => (subSliceBoundary 0 10 4 i, subSliceBoundary 0 10 4 (i + 1))))
      ∧ ((List.range 4).map
          (fun i => (subSliceBoundary 0 10 4 i, subSliceBoundary 0 10 4 (i + 1)))).length = 4
      ∧ subSliceBoundary 0 10 4 0 = 0
      ∧ subSliceBoundary 0 10 4 4 = 10
      ∧ (∀ i j : Nat, i ≤ j → subSliceBoundary 0 10 4 i ≤ subSliceBoundary 0 10 4 j)) :=
  ⟨⟨by decide, by decide⟩, subSlice_floor_boundaries 0 10 4 (by decide) (by decide)⟩

/-! ## Theorems for C8 (setupLocalProblem tag registration) -/

/-- C8 counterexample: registering tag (0,0) twice on the same Endpoint
succeeds both times, and the second setupLocalProblem silently replaces the
stored subproblem with the one built from the second configuration — nothing
enforces the claimed never-registered-twice invariant. -/
theorem setupLocalProblem_overwrite_cex :
    ((setupLocalProblem epC8 subC8a).bind (fun e => setupLocalProblem e subC8b)).toOption.map
        (fun e => e.localProblems (0, 0))
      = some (some { basePayload := 7, subConfig := subC8b, pairedSurvey := 100 })
    ∧ ¬ ((some { basePayload := 7, subConfig := subC8b, pairedSurvey := 100 } : Option Problem)
          = some { basePayload := 7, subConfig := subC8a, pairedSurvey := 100 }) :=
  ⟨rfl, by decide⟩

/-- C8 amended: setupLocalProblem stores the constructed subproblem by plain
dictionary assignment; a second call for the same tag (with its survey
present) raises no error and silently replaces the previously stored
subproblem with the newly constructed one. -/
theorem setupLocalProblem_silently_replaces (ep : EndpointProblems)
    (sub1 sub2 : SubConfig) (s1 s2 : Int) (htag : sub1.tag = sub2.tag)
    (h1 : ep.localSurveys sub1.isub = some s1)
    (h2 : ep.localSurveys sub2.isub = some s2) :
    ∃ ep1 ep2,
      setupLocalProblem ep sub1 = .ok ep1
      ∧ setupLocalProblem ep1 sub2 = .ok ep2
      ∧ ep1.localProblems sub1.tag
          = some { basePayload := ep.basePayload, subConfig := sub1, pairedSurvey := s1 }
      ∧ ep2.localProblems sub1.tag
          = some { basePayload := ep.basePayload, subConfig := sub2, pairedSurvey := s2 } := by
  refine ⟨storeProblem ep sub1 s1, storeProblem (storeProblem ep sub1 s1) sub2 s2,
    ?_, ?_, ?_, ?_⟩
  · unfold setupLocalProblem
    rw [h1]
  · unfold setupLocalProblem
    have h2a : (storeProblem ep sub1 s1).localSurveys sub2.isub = some s2 := h2
    rw [h2a]
  · simp [storeProblem]
  · simp [storeProblem, htag]

/-- C8 witness: the replacement theorem instantiated at a concrete endpoint
and two configurations sharing tag (0,0). -/
theorem setupLocalProblem_silently_replaces_witness :
    (subC8a.tag = subC8b.tag
      ∧ epC8.localSurveys subC8a.isub = some 100
      ∧ epC8.localSurveys subC8b.isub = some 100)
    ∧ (∃ ep1 ep2,
        setupLocalProblem epC8 subC8a = .ok ep1
        ∧ setupLocalProblem ep1 subC8b = .ok ep2
        ∧ ep1.localProblems subC8a.tag
            = some { basePayload := epC8.basePayload, subConfig := subC8a, pairedSurvey := 100 }
        ∧ ep2.localProblems subC8a.tag
            = some { basePayload := epC8.basePayload, subConfig := subC8b, pairedSurvey := 100 }) :=
  ⟨⟨rfl, rfl, rfl⟩,
    setupLocalProblem_silently_replaces epC8 subC8a subC8b 100 100 rfl rfl rfl⟩

/-! ## Theorems for C10 (setupLocalFields with an empty name list) -/

/-- In a list with unique keys, find? on a member's key returns that member. -/
theorem find?_key_of_mem (fs : List (FieldName × Container)) (p : FieldName × Container)
    (hnd : (fs.map Prod.fst).Nodup) (hp : p ∈ fs) :
    fs.find? (fun q => q.1 = p.1) = some p := by
  induction fs with
  | nil => cases hp
  | cons q0 rest ih =>
    rcases List.mem_cons.mp hp with h | h
    · subst h
      simp
    · by_cases hq : q0.1 = p.1
      · exfalso
        have : p.1 ∈ rest.map Prod.fst := List.mem_map_of_mem Prod.fst h
        have := (List.nodup_cons.mp hnd).1
        rw [hq] at this
        exact this ‹p.1 ∈ rest.map Prod.fst›
      · rw [List.find?_cons_of_neg _ (by simpa using hq)]
        exact ih (List.nodup_cons.mp hnd).2 h

/-- Reduction of setupLocalFields at an empty (hence falsy) name list: no
clearing happens, and the loop runs over the fieldspec keys starting from the
unchanged endpoint state. -/
theorem setupLocalFields_emptyList_eq (ep : EndpointFields)
    (fs : List (FieldName × Container)) (hfs : ep.fieldspec = some fs) :
    setupLocalFields ep (some []) = (fs.map Prod.fst).foldlM (fieldStep fs) ep := by
  simp only [setupLocalFields, Option.isNone_some]
  rw [if_neg (by simp)]
  rw [hfs]
  rfl

/-- Reduction of setupLocalFields at the omitted-argument (None) case:
localFields is cleared, and the loop runs over the fieldspec keys starting
from the cleared state. -/
theorem setupLocalFields_noneArg_eq (ep : EndpointFields)
    (fs : List (FieldName × Container)) (hfs : ep.fieldspec = some fs) :
    setupLocalFields ep none
      = (fs.map Prod.fst).foldlM (fieldStep fs) { ep with localFields := fun _ => none } := by
  simp only [setupLocalFields, Option.isNone_none, if_pos]
  rw [show ({ ep with localFields := fun _ => none } : EndpointFields).fieldspec = some fs from hfs]

/-- Running the setupLocalFields loop over a list of names all present in
fieldspec succeeds; names written get their fieldspec container, other keys
are untouched, and fieldspec itself is untouched. -/
theorem foldFieldNames (fs : List (FieldName × Container)) (names : List FieldName)
    (acc : EndpointFields)
    (hall : ∀ n ∈ names, (fs.find? (fun p => p.1 = n)).isSome) :
    ∃ ep2, names.foldlM (fieldStep fs) acc = .ok ep2
      ∧ ep2.fieldspec = acc.fieldspec
      ∧ (∀ k, k ∉ names → ep2.localFields k = acc.localFields k)
      ∧ (∀ k p, fs.find? (fun q => q.1 = k) = some p → k ∈ names →
            ep2.localFields k = some p.2) := by
  induction names generalizing acc with
  | nil =>
    exact ⟨acc, rfl, rfl, fun k _ => rfl, fun k p _ hk => absurd hk (List.not_mem_nil k)⟩
  | cons n rest ih =>
    obtain ⟨p0, hp0⟩ := Option.isSome_iff_exists.mp (hall n (List.mem_cons_self n rest))
    set acc1 : EndpointFields :=
      { acc with localFields := fun k => if k = n then some p0.2 else acc.localFields k }
      with hacc1
    obtain ⟨ep2, hfold, hfs, hframe, hvals⟩ :=
      ih acc1 (fun m hm => hall m (List.mem_cons_of_mem n hm))
    refine ⟨ep2, ?_, ?_, ?_, ?_⟩
    · rw [List.foldlM_cons, fieldStep, hp0]
      exact hfold
    · rw [hfs]
    · intro k hk
      have hkn : k ≠ n := fun h => hk (h ▸ List.mem_cons_self n rest)
      have hkr : k ∉ rest := fun h => hk (List.mem_cons_of_mem n h)
      rw [hframe k hkr, hacc1]
      simp [hkn]
    · intro k p hfind hk
      by_cases hkr : k ∈ rest
      · exact hvals k p hfind hkr
      · have hkn : k = n := by
          rcases List.mem_cons.mp hk with h | h
          · exact h
          · exact absurd h hkr
        subst hkn
        rw [hp0] at hfind
        injection hfind with hpp
        rw [hframe k hkr, hacc1]
        simp [hpp]

/-- C10: on an Endpoint whose fieldspec is present (with unique field names),
calling setupLocalFields with an empty name list does not construct zero
containers: the empty list is falsy in Python 2, so the loop runs over every
fieldspec name and stores a fresh container for each; but, unlike the
no-argument call, localFields is not cleared first, so entries under keys not
in fieldspec survive — whereas after the no-argument call those keys are
absent. -/
theorem setupLocalFields_empty_list (ep : EndpointFields)
    (fs : List (FieldName × Container))
    (hfs : ep.fieldspec = some fs) (hnd : (fs.map Prod.fst).Nodup) :
    ∃ ep2, setupLocalFields ep (some []) = .ok ep2
      ∧ (∀ p ∈ fs, ep2.localFields p.1 = some p.2)
      ∧ (∀ k, fs.find? (fun q => q.1 = k) = none → ep2.localFields k = ep.localFields k)
      ∧ (∃ ep3, setupLocalFields ep none = .ok ep3
          ∧ (∀ p ∈ fs, ep3.localFields p.1 = some p.2)
          ∧ (∀ k, fs.find? (fun q => q.1 = k) = none → ep3.localFields k = none)) := by
  have hall : ∀ n ∈ fs.map Prod.fst, (fs.find? (fun p => p.1 = n)).isSome := by
    intro n hn
    obtain ⟨p, hp, hpn⟩ := List.mem_map.mp hn
    rw [← hpn]
    rw [find?_key_of_mem fs p hnd hp]
    rfl
  have hnotmem : ∀ k, fs.find? (fun q => q.1 = k) = none → k ∉ fs.map Prod.fst := by
    intro k hfind hk
    obtain ⟨p, hp, hpn⟩ := List.mem_map.mp hk
    rw [← hpn] at hfind
    rw [find?_key_of_mem fs p hnd hp] at hfind
    cases hfind
  have hmemval : ∀ ep2 : EndpointFields, (∀ k p, fs.find? (fun q => q.1 = k) = some p →
      k ∈ fs.map Prod.fst → ep2.localFields k = some p.2) →
      ∀ p ∈ fs, ep2.localFields p.1 = some p.2 := by
    intro ep2 hv p hp
    exact hv p.1 p (find?_key_of_mem fs p hnd hp) (List.mem_map_of_mem Prod.fst hp)
  obtain ⟨ep2, hfold2, _, hframe2, hvals2⟩ := foldFieldNames fs (fs.map Prod.fst) ep hall
  obtain ⟨ep3, hfold3, _, hframe3, hvals3⟩ := foldFieldNames fs (fs.map Prod.fst)
    { ep with localFields := fun _ => none } hall
  refine ⟨ep2, ?_, hmemval ep2 hvals2, ?_, ep3, ?_, hmemval ep3 hvals3, ?_⟩
  · rw [setupLocalFields_emptyList_eq ep fs hfs]
    exact hfold2
  · intro k hk
    exact hframe2 k (hnotmem k hk)
  · rw [setupLocalFields_noneArg_eq ep fs hfs]
    exact hfold3
  · intro k hk
    exact hframe3 k (hnotmem k hk)

/-- C10 witness: the empty-list theorem instantiated at epC10. -/
theorem setupLocalFields_empty_list_witness :
    (epC10.fieldspec = some [("u", 1), ("v", 2)]
      ∧ ((["u", "v"] : List String)).Nodup)
    ∧ (∃ ep2, setupLocalFields epC10 (some []) = .ok ep2
      ∧ (∀ p ∈ [("u", (1 : Container)), ("v", 2)], ep2.localFields p.1 = some p.2)
      ∧ (∀ k, ([("u", (1 : Container)), ("v", 2)].find? (fun q => q.1 = k)) = none →
            ep2.localFields k = epC10.localFields k)
      ∧ (∃ ep3, setupLocalFields epC10 none = .ok ep3
          ∧ (∀ p ∈ [("u", (1 : Container)), ("v", 2)], ep3.localFields p.1 = some p.2)
          ∧ (∀ k, ([("u", (1 : Container)), ("v", 2)].find? (fun q => q.1 = k)) = none →
                ep3.localFields k = none))) :=
  ⟨⟨rfl, by decide⟩,
    setupLocalFields_empty_list epC10 [("u", 1), ("v", 2)] rfl (by decide)⟩

/-! ## Shared facts about folded addition -/

/-- Folding a list onto an initial value with addition gives the initial
value plus the list sum. -/
theorem foldl_add_eq_sum {α : Type} [AddMonoid α] (rest : List α) (v : α) :
    rest.foldl (fun a b => a + b) v = v + rest.sum := by
  induction rest generalizing v with
  | nil => simp
  | cons a t ih => simp [List.foldl_cons, ih (v + a), List.sum_cons, add_assoc]

/-- functools.reduce(np.add, vals) on a nonempty sequence is the sum. -/
theorem reduceNpAdd_eq_sum {α : Type} [AddMonoid α] (vals : List α) (h : vals ≠ []) :
    reduceNpAdd vals = some vals.sum := by
  cases vals with
  | nil => exact absurd rfl h
  | cons v rest => simp [reduceNpAdd, foldl_add_eq_sum, List.sum_cons]

/-- Sum of a list of functions, applied at a point, is the sum of the
pointwise values. -/
theorem list_sum_apply {ι β : Type} [AddCommMonoid β] (l : List (ι → β)) (x : ι) :
    l.sum x = (l.map (fun f => f x)).sum := by
  induction l with
  | nil => rfl
  | cons f t ih => simp [List.sum_cons, ih]

/-! ## Theorems for C5 (reduce equals pointwise sum in both modes) -/

/-- C5: for every nonempty list of per-worker addable values of a key,
RemoteInterface.reduce returns the same result in the collective-transport
path and the star-topology path, and that result is the pointwise sum over
all workers of each worker's value. -/
theorem reduce_pointwise_sum_both_modes {ι : Type} (vals : List (ι → Int)) (h : vals ≠ []) :
    remoteReduce true vals = remoteReduce false vals
    ∧ remoteReduce true vals = some vals.sum
    ∧ (∀ x, vals.sum x = (vals.map (fun f => f x)).sum) := by
  refine ⟨?_, by simp [remoteReduce], fun x => list_sum_apply vals x⟩
  simp [remoteReduce, reduceNpAdd_eq_sum vals h]

/-- C5 witness: the reduce agreement theorem at two concrete workers holding
two-entry arrays. -/
theorem reduce_pointwise_sum_both_modes_witness :
    valsC5 ≠ []
    ∧ (remoteReduce true valsC5 = remoteReduce false valsC5
      ∧ remoteReduce true valsC5 = some valsC5.sum
      ∧ (∀ x, valsC5.sum x = (valsC5.map (fun f => f x)).sum)) :=
  ⟨List.cons_ne_nil _ _, reduce_pointwise_sum_both_modes valsC5 (List.cons_ne_nil _ _)⟩

/-! ## Theorems for C3 (remoteSrcEstGatherFirst) -/

/-- C3 counterexample: two workers both hold key1 = 1 (1 by 1 array) and the
root holds key2 = 2.  The claimed formula, with key1 first reduced over the
workers, gives S = (2·2)/(2·2) = 1, and the star branch indeed computes 1;
but the collective (MPI) branch computes from the root's local key1 alone
(the gather is commented out in the source) and yields (2·1)/(1·1) = 2. -/
theorem remoteSrcEst_mpi_no_reduce_cex :
    (remoteSrcEstGF_mpi a1C3 b2C3 false).getWhole = some 2
    ∧ (srcEstClaimFormula [a1C3, a1C3] b2C3 false).getWhole = some 1
    ∧ (remoteSrcEstGF_star [a1C3, a1C3] b2C3 false).map SrcEstResult.getWhole
        = some (some 1)
    ∧ ((2 : ℚ) ≠ 1) := by
  refine ⟨?_, ?_, ?_, by norm_num⟩
  · simp [remoteSrcEstGF_mpi, SrcEstResult.getWhole, arrSumAll, arrMul, arrConj,
      a1C3, b2C3]
  · simp [srcEstClaimFormula, SrcEstResult.getWhole, arrSumAll, arrMul, arrConj,
      a1C3, b2C3]
    norm_num
  · simp [remoteSrcEstGF_star, reduceNpAdd, SrcEstResult.getWhole, arrSumAll, arrMul,
      arrConj, a1C3, b2C3]
    norm_num

/-- C3 amended: the star branch computes the claimed formula, with key1
reduced (pointwise-summed) over all workers and key2 taken from the root; but
the collective branch computes the same formula with the root's local key1
alone in place of the reduction (its gather step is commented out in the
source).  In both branches the result is stored under the result key on every
worker (broadcast in collective mode, direct assignment in star mode). -/
theorem remoteSrcEst_amended {α : Type} [Field α] [StarRing α] {m n : Nat}
    (vals1 : List (FieldArr α m n)) (k2 : FieldArr α m n) (ind : Bool)
    (h : vals1 ≠ []) :
    remoteSrcEstGF_star vals1 k2 ind = some (srcEstClaimFormula vals1 k2 ind)
    ∧ (∀ k1root : FieldArr α m n,
        remoteSrcEstGF_mpi k1root k2 ind = srcEstClaimFormula [k1root] k2 ind) := by
  constructor
  · have hsum : (fun i j => (vals1.map (fun A => A i j)).sum) = vals1.sum := by
      funext i j
      rw [list_sum_apply vals1 i, list_sum_apply ((vals1.map (fun A => A i))) j,
        List.map_map]
      rfl
    simp only [remoteSrcEstGF_star, reduceNpAdd_eq_sum vals1 h, Option.map_some',
      srcEstClaimFormula, hsum]
  · intro k1root
    have hone : (fun i j => (([k1root] : List (FieldArr α m n)).map
        (fun A => A i j)).sum) = k1root := by
      funext i j
      simp
    simp only [remoteSrcEstGF_mpi, srcEstClaimFormula, hone]

/-- C3 witness: the amended theorem instantiated at the concrete two-worker
scenario over the rationals. -/
theorem remoteSrcEst_amended_witness :
    ([a1C3, a1C3] : List (FieldArr ℚ 1 1)) ≠ []
    ∧ (remoteSrcEstGF_star [a1C3, a1C3] b2C3 false
        = some (srcEstClaimFormula [a1C3, a1C3] b2C3 false)
      ∧ (∀ k1root : FieldArr ℚ 1 1,
          remoteSrcEstGF_mpi k1root b2C3 false = srcEstClaimFormula [k1root] b2C3 false)) :=
  ⟨List.cons_ne_nil _ _,
    remoteSrcEst_amended [a1C3, a1C3] b2C3 false (List.cons_ne_nil _ _)⟩


/-! ## Theorems for C7 (collective temporaries) -/

theorem nsHas_set_self (ns : WorkerNS) (k : String) (v : PyVal) :
    nsHas (nsSet ns k v) k = true := by
  simp [nsHas, nsSet]

theorem nsHas_set_ne (ns : WorkerNS) (k q : String) (v : PyVal) (h : q ≠ k) :
    nsHas (nsSet ns k v) q = nsHas ns q := by
  simp [nsHas, nsSet, h]

theorem nsHas_set_true (ns : WorkerNS) (k q : String) (v : PyVal)
    (h : nsHas ns q = true) : nsHas (nsSet ns k v) q = true := by
  by_cases hq : q = k
  · subst hq
    exact nsHas_set_self ns q v
  · rw [nsHas_set_ne ns k q v hq]
    exact h

theorem nsHas_del_self (ns : WorkerNS) (k : String) :
    nsHas (nsDel ns k) k = false := by
  simp [nsHas, nsDel]

theorem nsHas_del_ne (ns : WorkerNS) (k q : String) (h : q ≠ k) :
    nsHas (nsDel ns k) q = nsHas ns q := by
  simp [nsHas, nsDel, h]

theorem nsHas_del_false (ns : WorkerNS) (k q : String)
    (h : nsHas ns q = false) : nsHas (nsDel ns k) q = false := by
  by_cases hq : q = k
  · subst hq
    exact nsHas_del_self ns q
  · rw [nsHas_del_ne ns k q hq]
    exact h

theorem drop_one_execRoot (c : Cluster) (f : WorkerNS → WorkerNS) :
    (execRoot c f).drop 1 = c.drop 1 := by
  cases c <;> rfl

theorem drop_one_execAll (c : Cluster) (f : WorkerNS → WorkerNS) :
    (execAll c f).drop 1 = (c.drop 1).map f := by
  cases c <;> simp [execAll]

theorem drop_one_commReduceTemp (c : Cluster) (k : String) :
    (commReduceTemp c k).drop 1
      = (c.drop 1).map (fun ns => nsSet ns ("temp_" ++ k) .pynone) := by
  cases c <;> simp [commReduceTemp]

theorem drop_one_bcastFromRoot (c : Cluster) (k : String) :
    (bcastFromRoot c k).drop 1
      = (c.drop 1).map (fun ns => nsSet ns k (rootVal c k)) := by
  cases c <;> simp [bcastFromRoot]

theorem take_one_execRoot (c : Cluster) (f : WorkerNS → WorkerNS) :
    ∀ ns ∈ (execRoot c f).take 1, ∃ r ∈ c.take 1, ns = f r := by
  cases c with
  | nil =>
    intro ns h
    cases h
  | cons r rest =>
    intro ns h
    have h2 : ns = f r := by
      simpa [execRoot] using h
    exact ⟨r, by simp, h2⟩

theorem mem_split_root_tail (c : Cluster) (P : WorkerNS → Prop)
    (h1 : ∀ ns ∈ c.take 1, P ns) (h2 : ∀ ns ∈ c.drop 1, P ns) :
    ∀ ns ∈ c, P ns := by
  cases c with
  | nil =>
    intro ns h
    cases h
  | cons r rest =>
    intro ns h
    rcases List.mem_cons.mp h with h3 | h3
    · subst h3
      exact h1 ns (by simp)
    · exact h2 ns (by simpa using h3)

theorem absent_all_execAll_del (c : Cluster) (k : String) :
    ∀ ns ∈ execAll c (fun ns => nsDel ns k), nsHas ns k = false := by
  intro ns h
  obtain ⟨ns0, _, rfl⟩ := List.mem_map.mp h
  exact nsHas_del_self ns0 k

theorem absent_preserved_execAll_del (c : Cluster) (k q : String)
    (h : ∀ ns ∈ c, nsHas ns q = false) :
    ∀ ns ∈ execAll c (fun ns => nsDel ns k), nsHas ns q = false := by
  intro ns hns
  obtain ⟨ns0, h0, rfl⟩ := List.mem_map.mp hns
  exact nsHas_del_false ns0 k q (h ns0 h0)

theorem absent_preserved_execRoot_del (c : Cluster) (k q : String)
    (h : ∀ ns ∈ c, nsHas ns q = false) :
    ∀ ns ∈ execRoot c (fun ns => nsDel ns k), nsHas ns q = false := by
  cases c with
  | nil =>
    intro ns h2
    cases h2
  | cons r rest =>
    intro ns hns
    rcases List.mem_cons.mp hns with h3 | h3
    · subst h3
      exact nsHas_del_false r k q (h r (by simp))
    · exact h ns (by simp [h3])

theorem string_eq_empty_of_length (s : String) (h : s.length = 0) : s = "" := by
  cases s with
  | mk data =>
    cases data with
    | nil => rfl
    | cons a l => simp [String.length] at h

theorem temp_append_ne_left (k1 k2 : String) (h : k2 ≠ "") :
    "temp_" ++ k1 ++ k2 ≠ "temp_" ++ k1 := by
  intro he
  apply h
  have hl := congrArg String.length he
  simp only [String.length_append] at hl
  exact string_eq_empty_of_length k2 (by omega)

theorem temp_append_ne_right (k1 k2 : String) (h : k1 ≠ "") :
    "temp_" ++ k1 ++ k2 ≠ "temp_" ++ k2 := by
  intro he
  apply h
  have hl := congrArg String.length he
  simp only [String.length_append] at hl
  exact string_eq_empty_of_length k1 (by omega)

/-- The cleanup tail shared by reduceMul: delete temp_key1 and temp_key2 on
every worker and temp_key1key2 on the root; afterwards no worker holds any of
the three, provided non-root workers did not hold temp_key1key2 going in. -/
theorem cleanup_phase (c4 : Cluster) (tmp1 tmp2 tmp12 : String)
    (htail : ∀ ns ∈ c4.drop 1, nsHas ns tmp12 = false) :
    ∀ ns ∈ execRoot (execAll (execAll c4 (fun ns => nsDel ns tmp1))
        (fun ns => nsDel ns tmp2)) (fun ns => nsDel ns tmp12),
      nsHas ns tmp1 = false ∧ nsHas ns tmp2 = false ∧ nsHas ns tmp12 = false := by
  intro ns hns
  refine ⟨?_, ?_, ?_⟩
  · exact absent_preserved_execRoot_del _ tmp12 tmp1
      (absent_preserved_execAll_del _ tmp2 tmp1 (absent_all_execAll_del c4 tmp1)) ns hns
  · exact absent_preserved_execRoot_del _ tmp12 tmp2
      (absent_all_execAll_del _ tmp2) ns hns
  · refine mem_split_root_tail _ (fun ns => nsHas ns tmp12 = false) ?_ ?_ ns hns
    · intro ns2 hns2
      obtain ⟨r, _, rfl⟩ := take_one_execRoot _ _ ns2 hns2
      exact nsHas_del_self r tmp12
    · intro ns2 hns2
      rw [drop_one_execRoot, drop_one_execAll, drop_one_execAll] at hns2
      obtain ⟨ns1, hns1, rfl⟩ := List.mem_map.mp hns2
      obtain ⟨ns0, hns0, rfl⟩ := List.mem_map.mp hns1
      exact nsHas_del_false _ tmp2 tmp12 (nsHas_del_false _ tmp1 tmp12 (htail ns0 hns0))

theorem reduceMPI_no_temps (c : Cluster) (k : String) :
    ∀ ns ∈ (clusterReduceMPI c k).1, nsHas ns ("temp_" ++ k) = false := by
  intro ns h
  exact absent_all_execAll_del (commReduceTemp c k) ("temp_" ++ k) ns h

theorem reduceMulMPI_no_temps (c : Cluster) (k1 k2 : String) (axis : Option Int)
    (h1 : k1 ≠ "") (h2 : k2 ≠ "")
    (hpre : ∀ ns ∈ c.drop 1, nsHas ns ("temp_" ++ k1 ++ k2) = false) :
    ∀ ns ∈ (clusterReduceMulMPI c k1 k2 axis).1,
      nsHas ns ("temp_" ++ k1) = false ∧ nsHas ns ("temp_" ++ k2) = false
        ∧ nsHas ns ("temp_" ++ k1 ++ k2) = false := by
  have htail : ∀ (c4 : Cluster), c4.drop 1
        = ((c.drop 1).map (fun ns => nsSet ns ("temp_" ++ k1) .pynone)).map
            (fun ns => nsSet ns ("temp_" ++ k2) .pynone) →
      ∀ ns ∈ c4.drop 1, nsHas ns ("temp_" ++ k1 ++ k2) = false := by
    intro c4 heq ns hns
    rw [heq] at hns
    obtain ⟨ns1, hns1, rfl⟩ := List.mem_map.mp hns
    obtain ⟨ns0, hns0, rfl⟩ := List.mem_map.mp hns1
    rw [nsHas_set_ne _ _ _ _ (temp_append_ne_right k1 k2 h1),
      nsHas_set_ne _ _ _ _ (temp_append_ne_left k1 k2 h2)]
    exact hpre ns0 hns0
  cases axis with
  | none =>
    intro ns hns
    refine cleanup_phase _ ("temp_" ++ k1) ("temp_" ++ k2) ("temp_" ++ k1 ++ k2)
      (htail _ ?_) ns hns
    rw [drop_one_execRoot, drop_one_commReduceTemp, drop_one_commReduceTemp]
  | some d =>
    intro ns hns
    refine cleanup_phase _ ("temp_" ++ k1) ("temp_" ++ k2) ("temp_" ++ k1 ++ k2)
      (htail _ ?_) ns hns
    rw [drop_one_execRoot, drop_one_execRoot, drop_one_commReduceTemp,
      drop_one_commReduceTemp]

theorem setMPI_frame (c : Cluster) (k q : String) (v : PyVal) (h : q ≠ k) :
    (clusterSetMPI c k v).map (fun ns => nsHas ns q) = c.map (fun ns => nsHas ns q) := by
  unfold clusterSetMPI bcastFromRoot
  rw [List.map_map]
  have hcong : ∀ ns ∈ execRoot c (fun ns => nsSet ns k v),
      ((fun ns => nsHas ns q) ∘ (fun ns =>
        nsSet ns k (rootVal (execRoot c (fun ns => nsSet ns k v)) k))) ns
        = nsHas ns q := by
    intro ns _
    exact nsHas_set_ne ns k q _ h
  rw [List.map_congr_left hcong]
  cases c with
  | nil => rfl
  | cons r rest =>
    simp only [execRoot, List.map_cons]
    rw [nsHas_set_ne r k q v h]

theorem getMPI_root_temp (c : Cluster) (k : String) :
    ∀ ns ∈ ((clusterGetMPI c k).1).take 1, nsHas ns ("temp_" ++ k) = false := by
  cases c with
  | nil =>
    intro ns h
    cases h
  | cons r rest =>
    intro ns hns
    have h2 : ns = nsDel (nsSet r ("temp_" ++ k)
        (.pylist (pyAsInt (nsVal r k) :: rest.map (fun ns => pyAsInt (nsVal ns k)))))
        ("temp_" ++ k) := by
      simpa [clusterGetMPI, execRoot] using hns
    subst h2
    exact nsHas_del_self _ _

theorem getMPI_tail_temp (c : Cluster) (k : String) :
    ∀ ns ∈ ((clusterGetMPI c k).1).drop 1, nsHas ns ("temp_" ++ k) = true := by
  cases c with
  | nil =>
    intro ns h
    cases h
  | cons r rest =>
    intro ns hns
    have h2 : ns ∈ rest.map (fun ns => nsSet ns ("temp_" ++ k) .pynone) := hns
    obtain ⟨ns0, _, rfl⟩ := List.mem_map.mp h2
    exact nsHas_set_self ns0 _ _

theorem remoteDifference_root_temps (c : Cluster) (k1 k2 kr : String) :
    ∀ ns ∈ (clusterRemoteDifferenceMPI c k1 k2 kr).take 1,
      nsHas ns ("temp_" ++ k1) = false ∧ nsHas ns ("temp_" ++ k2) = false := by
  intro ns hns
  obtain ⟨r5, hr5, rfl⟩ := take_one_execRoot _ _ ns hns
  obtain ⟨r4, hr4, rfl⟩ := take_one_execRoot _ _ r5 hr5
  exact ⟨nsHas_del_false _ _ _ (nsHas_del_self r4 _), nsHas_del_self _ _⟩

theorem remoteDifference_tail_temps (c : Cluster) (k1 k2 kr : String) :
    ∀ ns ∈ (clusterRemoteDifferenceMPI c k1 k2 kr).drop 1,
      nsHas ns ("temp_" ++ k1) = true ∧ nsHas ns ("temp_" ++ k2) = true := by
  intro ns hns
  simp only [clusterRemoteDifferenceMPI] at hns
  rw [drop_one_execRoot, drop_one_execRoot, drop_one_bcastFromRoot,
    drop_one_execRoot, drop_one_commReduceTemp, drop_one_commReduceTemp] at hns
  obtain ⟨ns2, hns2, rfl⟩ := List.mem_map.mp hns
  obtain ⟨ns1, hns1, rfl⟩ := List.mem_map.mp hns2
  obtain ⟨ns0, hns0, rfl⟩ := List.mem_map.mp hns1
  constructor
  · exact nsHas_set_true _ _ _ _ (nsHas_set_true _ _ _ _ (nsHas_set_self ns0 _ _))
  · exact nsHas_set_true _ _ _ _ (nsHas_set_self _ _ _)

theorem remoteOpGF_root_temp (c : Cluster) (op : PyVal → PyVal → PyVal)
    (k1 k2 kr : String) :
    ∀ ns ∈ (clusterRemoteOpGFMPI c op k1 k2 kr).take 1,
      nsHas ns ("temp_" ++ k1) = false := by
  intro ns hns
  obtain ⟨r3, hr3, rfl⟩ := take_one_execRoot _ _ ns hns
  exact nsHas_del_self r3 _

theorem remoteOpGF_tail_temp (c : Cluster) (op : PyVal → PyVal → PyVal)
    (k1 k2 kr : String) :
    ∀ ns ∈ (clusterRemoteOpGFMPI c op k1 k2 kr).drop 1,
      nsHas ns ("temp_" ++ k1) = true := by
  intro ns hns
  simp only [clusterRemoteOpGFMPI] at hns
  rw [drop_one_execRoot, drop_one_bcastFromRoot, drop_one_execRoot,
    drop_one_commReduceTemp] at hns
  obtain ⟨ns1, hns1, rfl⟩ := List.mem_map.mp hns
  obtain ⟨ns0, hns0, rfl⟩ := List.mem_map.mp hns1
  exact nsHas_set_true _ _ _ _ (nsHas_set_self ns0 _ _)

/-- C7 counterexample: on a two-worker cluster where both workers hold a = 1
and b = 2, the collective remoteDifference computes r = reduce(a) - reduce(b)
= -2 on every worker, but leaves temp_a and temp_b bound (to None) in the
non-root worker's namespace: the temporaries are deleted on the root only,
refuting the claim that no temporary remains on any worker. -/
theorem remoteDifference_leaves_temps_cex :
    (clusterRemoteDifferenceMPI cC7 "a" "b" "r").map
        (fun ns => (nsHas ns "temp_a", nsHas ns "temp_b", nsVal ns "r"))
      = [(false, false, PyVal.pyint (-2)), (true, true, PyVal.pyint (-2))] := by
  decide

/-- C7 amended: after the collective reduce and reduceMul, no worker's
namespace retains any of the operation's temporaries, and set introduces no
temporary (the presence of every other name is unchanged on every worker);
but get, remoteDifference, and remoteOpGatherFirst delete their temporaries
on the root only — on every non-root worker the temp_<key> names remain
bound (to None) after the operation completes. -/
theorem collective_temporaries_amended (c : Cluster) (k1 k2 kr : String)
    (v : PyVal) (axis : Option Int) (op : PyVal → PyVal → PyVal)
    (h1 : k1 ≠ "") (h2 : k2 ≠ "")
    (hpre : ∀ ns ∈ c.drop 1, nsHas ns ("temp_" ++ k1 ++ k2) = false) :
    (∀ ns ∈ (clusterReduceMPI c k1).1, nsHas ns ("temp_" ++ k1) = false)
    ∧ (∀ ns ∈ (clusterReduceMulMPI c k1 k2 axis).1,
        nsHas ns ("temp_" ++ k1) = false ∧ nsHas ns ("temp_" ++ k2) = false
          ∧ nsHas ns ("temp_" ++ k1 ++ k2) = false)
    ∧ (∀ q, q ≠ k1 →
        (clusterSetMPI c k1 v).map (fun ns => nsHas ns q)
          = c.map (fun ns => nsHas ns q))
    ∧ (∀ ns ∈ ((clusterGetMPI c k1).1).take 1, nsHas ns ("temp_" ++ k1) = false)
    ∧ (∀ ns ∈ ((clusterGetMPI c k1).1).drop 1, nsHas ns ("temp_" ++ k1) = true)
    ∧ (∀ ns ∈ (clusterRemoteDifferenceMPI c k1 k2 kr).take 1,
        nsHas ns ("temp_" ++ k1) = false ∧ nsHas ns ("temp_" ++ k2) = false)
    ∧ (∀ ns ∈ (clusterRemoteDifferenceMPI c k1 k2 kr).drop 1,
        nsHas ns ("temp_" ++ k1) = true ∧ nsHas ns ("temp_" ++ k2) = true)
    ∧ (∀ ns ∈ (clusterRemoteOpGFMPI c op k1 k2 kr).take 1,
        nsHas ns ("temp_" ++ k1) = false)
    ∧ (∀ ns ∈ (clusterRemoteOpGFMPI c op k1 k2 kr).drop 1,
        nsHas ns ("temp_" ++ k1) = true) :=
  ⟨reduceMPI_no_temps c k1,
    reduceMulMPI_no_temps c k1 k2 axis h1 h2 hpre,
    fun q hq => setMPI_frame c k1 q v hq,
    getMPI_root_temp c k1,
    getMPI_tail_temp c k1,
    remoteDifference_root_temps c k1 k2 kr,
    remoteDifference_tail_temps c k1 k2 kr,
    remoteOpGF_root_temp c op k1 k2 kr,
    remoteOpGF_tail_temp c op k1 k2 kr⟩

/-- C7 witness: the amended theorem instantiated on the concrete two-worker
cluster, with keys a and b, result key r, broadcast value 5, no axis, and
addition as the gather-first operation. -/
theorem collective_temporaries_amended_witness :
    (("a" : String) ≠ "" ∧ ("b" : String) ≠ ""
      ∧ (∀ ns ∈ cC7.drop 1, nsHas ns ("temp_" ++ "a" ++ "b") = false))
    ∧ ((∀ ns ∈ (clusterReduceMPI cC7 "a").1, nsHas ns ("temp_" ++ "a") = false)
      ∧ (∀ ns ∈ (clusterReduceMulMPI cC7 "a" "b" none).1,
          nsHas ns ("temp_" ++ "a") = false ∧ nsHas ns ("temp_" ++ "b") = false
            ∧ nsHas ns ("temp_" ++ "a" ++ "b") = false)
      ∧ (∀ q, q ≠ "a" →
          (clusterSetMPI cC7 "a" (.pyint 5)).map (fun ns => nsHas ns q)
            = cC7.map (fun ns => nsHas ns q))
      ∧ (∀ ns ∈ ((clusterGetMPI cC7 "a").1).take 1, nsHas ns ("temp_" ++ "a") = false)
      ∧ (∀ ns ∈ ((clusterGetMPI cC7 "a").1).drop 1, nsHas ns ("temp_" ++ "a") = true)
      ∧ (∀ ns ∈ (clusterRemoteDifferenceMPI cC7 "a" "b" "r").take 1,
          nsHas ns ("temp_" ++ "a") = false ∧ nsHas ns ("temp_" ++ "b") = false)
      ∧ (∀ ns ∈ (clusterRemoteDifferenceMPI cC7 "a" "b" "r").drop 1,
          nsHas ns ("temp_" ++ "a") = true ∧ nsHas ns ("temp_" ++ "b") = true)
      ∧ (∀ ns ∈ (clusterRemoteOpGFMPI cC7 pyAdd "a" "b" "r").take 1,
          nsHas ns ("temp_" ++ "a") = false)
      ∧ (∀ ns ∈ (clusterRemoteOpGFMPI cC7 pyAdd "a" "b" "r").drop 1,
          nsHas ns ("temp_" ++ "a") = true)) :=
  ⟨⟨by decide, by decide, by decide⟩,
    collective_temporaries_amended cC7 "a" "b" "r" (.pyint 5) none pyAdd
      (by decide) (by decide) (by decide)⟩



/-! ## Theorems for C1, C4 and C9 (the scheduler) -/

/-- In collective mode, reduceChain submits one job per label, collects all
of the jobs in submission order, gives the first submission the initial after
argument, and chains each subsequent submission after the previous job. -/
theorem reduceChain_mpi_spec (labels : List String) (after0 : AfterArg) (nid : Nat) :
    ((reduceChain true labels after0 nid).1.map (fun r => r.label) = labels)
    ∧ ((reduceChain true labels after0 nid).2.1
        = (reduceChain true labels after0 nid).1.map (fun r => r.jobId))
    ∧ (∀ r ∈ (reduceChain true labels after0 nid).1.head?, r.afterArg = after0)
    ∧ List.Chain' (fun r1 r2 => r2.afterArg = .singleJob r1.jobId)
        (reduceChain true labels after0 nid).1 := by
  induction labels generalizing after0 nid with
  | nil =>
    refine ⟨rfl, rfl, ?_, List.chain'_nil⟩
    intro r h
    cases h
  | cons label rest ih =>
    obtain ⟨ih1, ih2, ih3, ih4⟩ := ih (.singleJob nid) (nid + 1)
    refine ⟨?_, ?_, ?_, ?_⟩
    · simp only [reduceChain, if_true, List.map_cons, ih1]
    · simp only [reduceChain, if_true, List.map_cons, ih2]
    · intro r h
      simp only [reduceChain, if_true, List.head?_cons, Option.mem_def,
        Option.some.injEq] at h
      rw [← h]
    · simp only [reduceChain, if_true]
      rw [List.chain'_cons']
      refine ⟨?_, ih4⟩
      intro b hb
      rw [ih3 b hb]

/-- Inversion of a successful scheduler run: the reduces and endJobs fields
come from reduceChain seeded with the clear-job list. -/
theorem systemSolverCall_ok_shape (cfg : SchedConfig) (isrcs : ISrcs) (out : SchedOut)
    (h : systemSolverCall cfg isrcs = .ok out) :
    ∃ nid, out.reduces = (reduceChain cfg.useMPI cfg.entry.reduce
        (.jobList (out.clears.map (fun t => t.jobId))) nid).1
      ∧ out.endJobs = (reduceChain cfg.useMPI cfg.entry.reduce
        (.jobList (out.clears.map (fun t => t.jobId))) nid).2.1 := by
  simp only [systemSolverCall] at h
  split at h
  · exact Except.noConfusion h
  · split at h
    · exact Except.noConfusion h
    · rename_i r hsch
      simp only [Except.ok.injEq] at h
      refine ⟨r.2.2, ?_, ?_⟩ <;> rw [← h]

/-- C4 counterexample: with two reduction field names u and v, the scheduler
submits job 2 for u (after the clear-job list [1]) and job 3 for v (after
job 2), but the End node's jobs attribute is [2, 3] — every reduction job —
not the last reduction's job list [3] as the claim states. -/
theorem endJobs_not_last_reduction_cex :
    (systemSolverCall cfgC4 (.sliceArg (some 0) (some 1))).map
        (fun out => (out.reduces.map (fun r => (r.jobId, r.afterArg)), out.endJobs))
      = .ok ([(2, .jobList [1]), (3, .singleJob 2)], [2, 3])
    ∧ ([2, 3] : List Nat) ≠ [3] :=
  ⟨rfl, by decide⟩

/-- C4 amended: with collective transport, for every scheduled entry the
reduction tasks are submitted strictly sequenced — the first after the full
clear-job list, and each subsequent reduction after the previous reduction's
job — but the End node's jobs attribute is the list of all the reduction
jobs in submission order, not only the last reduction's job. -/
theorem reduce_chain_sequencing (cfg : SchedConfig) (isrcs : ISrcs) (out : SchedOut)
    (hmpi : cfg.useMPI = true) (h : systemSolverCall cfg isrcs = .ok out) :
    out.reduces.map (fun r => r.label) = cfg.entry.reduce
    ∧ (∀ r ∈ out.reduces.head?,
        r.afterArg = .jobList (out.clears.map (fun t => t.jobId)))
    ∧ List.Chain' (fun r1 r2 => r2.afterArg = .singleJob r1.jobId) out.reduces
    ∧ out.endJobs = out.reduces.map (fun r => r.jobId) := by
  obtain ⟨nid, hred, hend⟩ := systemSolverCall_ok_shape cfg isrcs out h
  rw [hmpi] at hred hend
  obtain ⟨s1, s2, s3, s4⟩ := reduceChain_mpi_spec cfg.entry.reduce
    (.jobList (out.clears.map (fun t => t.jobId))) nid
  refine ⟨?_, ?_, ?_, ?_⟩
  · rw [hred, s1]
  · rw [hred]
    exact s3
  · rw [hred]
    exact s4
  · rw [hend, s2, ← hred]

/-- C4 witness: the sequencing theorem instantiated at the concrete
two-reduction schedule. -/
theorem reduce_chain_sequencing_witness :
    (cfgC4.useMPI = true
      ∧ systemSolverCall cfgC4 (.sliceArg (some 0) (some 1)) = .ok outC4)
    ∧ (outC4.reduces.map (fun r => r.label) = cfgC4.entry.reduce
      ∧ (∀ r ∈ outC4.reduces.head?,
          r.afterArg = .jobList (outC4.clears.map (fun t => t.jobId)))
      ∧ List.Chain' (fun r1 r2 => r2.afterArg = .singleJob r1.jobId) outC4.reduces
      ∧ outC4.endJobs = outC4.reduces.map (fun r => r.jobId)) :=
  ⟨⟨rfl, rfl⟩,
    reduce_chain_sequencing cfgC4 (.sliceArg (some 0) (some 1)) outC4 rfl rfl⟩

/-- C1: at the failing input — two workers, tag (0,0) hosted only on rank 0,
sources [0, 1) — the single compute task submitted for tag (0,0) carries a
plain Reference and no dependency or placement flags, and is therefore
dispatchable to (and executable on) worker 1, which does not host the tag:
the scheduler attaches no affinity constraint to compute submissions (the
SuperReference mechanism exists but is not wired in, and _hasSystemRank is
never invoked). -/
theorem scheduler_no_affinity_constraint :
    (systemSolverCall cfgC1 (.sliceArg (some 0) (some 1))).map
        (fun out => out.computes.map (fun t => (t.tag, t.dispatchableTo workerC1b)))
      = .ok [((0, 0), true)]
    ∧ ((0, 0) : Tag) ∉ workerC1b.localProblems :=
  ⟨rfl, by decide⟩

/-- C9: the explicit shape check raises exactly for a non-slice, non-None
argument, synchronously before any submission; but the None sentinel is
converted to slice(None), whose stop is None, so _subSlice raises a TypeError
as soon as any tag is scheduled, instead of scheduling the full source range
(the nsrc fetched at line 173 is never used); a proper slice schedules
without error. -/
theorem scheduler_isrcs_error_behavior :
    systemSolverCall cfgC9 .otherArg = .error "Scheduler must run over slice or None!"
    ∧ systemSolverCall cfgC9 .noneArg
        = .error "TypeError: unsupported operand type for -: NoneType and int"
    ∧ (systemSolverCall cfgC9 (.sliceArg (some 0) (some 4))).isOk = true :=
  ⟨rfl, rfl, rfl⟩


end SimPEGParallel
